import Mathlib

set_option maxHeartbeats 1000000

/-!
Formal model of the `rhyme_check` repository's rhyme analyzer
(`src/components/rhymeAnalyzer.js`), together with the input-shape
validation performed by its entry point `analyzeRhymePatterns`.

Modelling conventions:
* JS arrays are Lean lists; JS numbers holding array indices or counts are
  `Nat`; JS numbers that can go negative (priorities, tolerances, signed
  positional differences) are `Int`.
* The JS `Set` of claimed cell keys `"line-char"` is modelled as a
  `List (Nat × Nat)` used only through membership; the string key
  `` `${line}-${i}` `` is injective on naturals, so the pair `(line, i)`
  is a faithful key.
* The dynamically-typed argument of `analyzeRhymePatterns` is modelled by
  the `JVal` type of JSON-like values; the typed records produced after
  validation are `LineGroup` and `CharInfo`.
* The classification of a candidate match is carried both as the literal
  `rhymeType` string built by the source (`` `${len}字句尾押韵` `` etc.)
  and as an explicit tag `RhymeKind`, which the source encodes only inside
  that string.
* JS `Array.prototype.sort` is stable (ES2019); both sorts in the source
  use the comparator `(a, b) => b.key - a.key`, i.e. a stable descending
  sort by an integer key, modelled by the stable insertion sort
  `sortDescBy`.
-/

/-- One character's converted information (`char`, `pinyin`, `normalGroup`,
`strictGroup`), as produced by the converter module and consumed by
`analyzeRhymePatterns`. -/
structure CharInfo where
  char : String
  pinyin : String
  normalGroup : String
  strictGroup : String
deriving DecidableEq

/-- One line of the verse: the raw line text and its character infos. -/
structure LineGroup where
  line : String
  charInfos : List CharInfo
deriving DecidableEq

/-- The three classifications a candidate pair can receive
(`句尾押韵` / `非句尾句间押韵` / `句内押韵`).  The source represents the
classification only inside the `rhymeType` string; we carry it as an
explicit tag alongside that string. -/
inductive RhymeKind where
  | endRhyme
  | interLine
  | internal
deriving DecidableEq

/-- The detection options accepted by `analyzeRhymePatterns`, with the
defaults the source destructures (`detectEndRhyme = true`, …,
`interLineTolerance = 2`, `interLineLineDiffTolerance = 4`,
`internalRhymeTolerance = 0`). -/
structure Options where
  detectEndRhyme : Bool := true
  detectInterLineRhyme : Bool := true
  detectInternalRhyme : Bool := true
  interLineTolerance : Int := 2
  interLineLineDiffTolerance : Int := 4
  internalRhymeTolerance : Int := 0
deriving DecidableEq

/-- A candidate span, as built by `extractAllRhymeSequences`: a contiguous
run `[startIndex, endIndex]` of characters in line `lineIndex`. -/
structure SeqInfo where
  lineIndex : Nat
  startIndex : Nat
  endIndex : Nat
  length : Nat
  sequence : List String
  sequenceKey : String
  chars : List String
  pinyins : List String
  isEndOfLine : Bool
  priorityScore : Int
deriving DecidableEq

/-- `getSequenceKey`: the `'_'`-joined string form of a rhyme-group
sequence (`sequence.join('_')`). -/
def getSequenceKey (sequence : List String) : String :=
  String.intercalate "_" sequence

/-- `|a - b|` on naturals, modelling `Math.abs` applied to a difference of
two array indices. -/
def absDiff (a b : Nat) : Nat :=
  if a ≤ b then b - a else a - b

/-- Stable insertion of `x` into a list sorted descending by `key`:
`x` goes after every already-present element whose key is `≥ key x`. -/
def insertDescBy (key : α → Int) (x : α) : List α → List α
  | [] => [x]
  | y :: ys => if key y < key x then x :: y :: ys else y :: insertDescBy key x ys

/-- Stable descending sort by an integer key; models the JS stable
`sort((a, b) => b.key - a.key)`. -/
def sortDescBy (key : α → Int) (l : List α) : List α :=
  l.foldl (fun acc x => insertDescBy key x acc) []

/-- The spans of one line, in the source's generation order: for every
`startIndex`, for every `endIndex ≥ startIndex`, scan the characters and
discard the whole range if any `normalGroup` is `'未知'` or `''`.
The JS loop breaks at the first unknown character; breaking early or
scanning the whole slice yields the same decision, so the span is built
from the slice with an `any` test. -/
def extractLineSpans (lineIndex : Nat) (group : LineGroup) : List SeqInfo :=
  let charInfos := group.charInfos
  let maxLength := charInfos.length
  (List.range maxLength).flatMap fun startIndex =>
    (List.range' startIndex (maxLength - startIndex)).filterMap fun endIndex =>
      let sequenceLength := endIndex - startIndex + 1
      let isEndOfLine := endIndex == maxLength - 1
      let slice := (charInfos.drop startIndex).take (endIndex - startIndex + 1)
      if slice.any (fun ci => ci.normalGroup == "未知" || ci.normalGroup == "") then
        none
      else
        let rhymeSequence := slice.map (·.normalGroup)
        some
          { lineIndex := lineIndex
            startIndex := startIndex
            endIndex := endIndex
            length := sequenceLength
            sequence := rhymeSequence
            sequenceKey := getSequenceKey rhymeSequence
            chars := slice.map (·.char)
            pinyins := slice.map (·.pinyin)
            isEndOfLine := isEndOfLine
            priorityScore :=
              (if isEndOfLine then (1000 : Int) else 0) + (sequenceLength : Int) * 10 }

/-- `extractAllRhymeSequences`: all valid spans of all lines, sorted
descending by `priorityScore` (stable). -/
def extractAllRhymeSequences (rhymeGroups : List LineGroup) : List SeqInfo :=
  let allSequences := rhymeGroups.enum.flatMap fun p => extractLineSpans p.1 p.2
  sortDescBy (·.priorityScore) allSequences

/-- `isWithinFourLines`: the line-distance gate
`|seq2.lineIndex - seq1.lineIndex| ≤ tolerance`. -/
def isWithinFourLines (seq1 seq2 : SeqInfo) (tolerance : Int) : Bool :=
  decide (((absDiff seq1.lineIndex seq2.lineIndex : Nat) : Int) ≤ tolerance)

/-- The cells `(lineIndex, i)` for `i = startIndex .. endIndex` of a span;
the set of positions the source iterates over in `isSequenceMarked` and
`markSequencePositions`. -/
def SeqInfo.cellList (s : SeqInfo) : List (Nat × Nat) :=
  (List.range' s.startIndex (s.endIndex + 1 - s.startIndex)).map fun i => (s.lineIndex, i)

/-- `isSequenceMarked`: whether any cell of the span is already claimed. -/
def isSequenceMarked (seq : SeqInfo) (markedPositions : List (Nat × Nat)) : Bool :=
  seq.cellList.any fun c => decide (c ∈ markedPositions)

/-- `markSequencePositions`: claim every cell of the span (the JS mutates
the `Set`; we return the extended list). -/
def markSequencePositions (seq : SeqInfo) (markedPositions : List (Nat × Nat)) : List (Nat × Nat) :=
  markedPositions ++ seq.cellList

/-- `isNonEndInterLineRhyme`, as defined in the source.  Note: this helper
is declared in `rhymeAnalyzer.js` but `analyzeRhymePatterns` never calls
it; the inter-line branch re-implements the test without the
end-of-line condition. -/
def isNonEndInterLineRhyme (seq1 seq2 : SeqInfo) (tolerance : Int) : Bool :=
  if seq1.lineIndex == seq2.lineIndex then false
  else if seq1.isEndOfLine || seq2.isEndOfLine then false
  else decide (((absDiff seq1.startIndex seq2.startIndex : Nat) : Int) ≤ tolerance)

/-- The non-overlapping character gap between two same-line spans: `0`
when they overlap or abut.  This computation appears twice in the source
(inside `isInternalRhymeValid` and inline in the internal-rhyme branch of
`analyzeRhymePatterns`), identically. -/
def internalGap (seq1 seq2 : SeqInfo) : Nat :=
  if seq1.endIndex < seq2.startIndex then seq2.startIndex - seq1.endIndex - 1
  else if seq2.endIndex < seq1.startIndex then seq1.startIndex - seq2.endIndex - 1
  else 0

/-- `isInternalRhymeValid`: a same-line pair is valid iff its gap is at
most `min(seq1.length, seq2.length) + tolerance`; pairs on different lines
pass vacuously. -/
def isInternalRhymeValid (seq1 seq2 : SeqInfo) (tolerance : Int) : Bool :=
  if seq1.lineIndex != seq2.lineIndex then true
  else
    let interval := internalGap seq1 seq2
    let rhymeCount := Nat.min seq1.length seq2.length
    decide (((interval : Nat) : Int) ≤ ((rhymeCount : Nat) : Int) + tolerance)

/-- A candidate match: a classified pair of spans, as pushed onto
`allPossibleMatches` by the source.  `kind` is the explicit classification
tag; the source stores it only inside `rhymeType`. -/
structure Match where
  seq1 : SeqInfo
  seq2 : SeqInfo
  rhymeType : String
  interval : Nat
  priority : Int
  sequenceLength : Nat
  sequence : List String
  sequenceKey : String
  kind : RhymeKind
deriving DecidableEq

/-- The classification of one ordered pair of spans, mirroring the body of
the pair loop in `analyzeRhymePatterns`: the line-distance gate, the
sequence-key equality test, then the three `if / else if / else if`
branches (end rhyme, inter-line rhyme, internal rhyme).  `none` models
`continue` / no match pushed. -/
def classifyPair (rhymeGroups : List LineGroup) (o : Options) (seq1 seq2 : SeqInfo) : Option Match :=
  if isWithinFourLines seq1 seq2 o.interLineLineDiffTolerance then
    if seq1.sequenceKey == seq2.sequenceKey then
      if o.detectEndRhyme && (seq1.isEndOfLine || seq2.isEndOfLine) then
        let interval := absDiff seq1.lineIndex seq2.lineIndex
        some
          { seq1 := seq1, seq2 := seq2
            rhymeType := toString seq1.length ++ "字句尾押韵"
            interval := interval
            priority := 1000 - (interval : Int) + (seq1.length : Int) * 10
            sequenceLength := seq1.length
            sequence := seq1.sequence
            sequenceKey := seq1.sequenceKey
            kind := RhymeKind.endRhyme }
      else if o.detectInterLineRhyme && (seq1.lineIndex != seq2.lineIndex) then
        if String.join seq1.chars == String.join seq2.chars then none
        else
          let line1Length := (rhymeGroups.getD seq1.lineIndex ⟨"", []⟩).charInfos.length
          let line2Length := (rhymeGroups.getD seq2.lineIndex ⟨"", []⟩).charInfos.length
          let forwardDiff := absDiff seq1.startIndex seq2.startIndex
          let reverse1 : Int := (line1Length : Int) - 1 - (seq1.endIndex : Int)
          let reverse2 : Int := (line2Length : Int) - 1 - (seq2.endIndex : Int)
          let reverseDiff := (reverse1 - reverse2).natAbs
          let interval := Nat.min forwardDiff reverseDiff
          if decide (((interval : Nat) : Int) ≤ o.interLineTolerance) then
            some
              { seq1 := seq1, seq2 := seq2
                rhymeType := toString seq1.length ++ "字非句尾句间押韵"
                interval := interval
                priority := 500 - (interval : Int) + (seq1.length : Int) * 10
                sequenceLength := seq1.length
                sequence := seq1.sequence
                sequenceKey := seq1.sequenceKey
                kind := RhymeKind.interLine }
          else none
      else if o.detectInternalRhyme && (seq1.lineIndex == seq2.lineIndex) then
        let interval := internalGap seq1 seq2
        if isInternalRhymeValid seq1 seq2 o.internalRhymeTolerance then
          some
            { seq1 := seq1, seq2 := seq2
              rhymeType := toString seq1.length ++ "字句内押韵"
              interval := interval
              priority := 100 - (interval : Int) + (seq1.length : Int) * 10
              sequenceLength := seq1.length
              sequence := seq1.sequence
              sequenceKey := seq1.sequenceKey
              kind := RhymeKind.internal }
        else none
      else none
    else none
  else none

/-- All ordered pairs `(l[i], l[j])` with `i < j`, in the source's
double-loop order. -/
def orderedPairs : List α → List (α × α)
  | [] => []
  | x :: xs => (xs.map fun y => (x, y)) ++ orderedPairs xs

/-- `allPossibleMatches`: classify every `i < j` pair of extracted spans. -/
def collectMatches (rhymeGroups : List LineGroup) (o : Options) : List Match :=
  (orderedPairs (extractAllRhymeSequences rhymeGroups)).filterMap fun pq =>
    classifyPair rhymeGroups o pq.1 pq.2

/-- The candidate matches sorted descending by `priority` (stable). -/
def sortedMatches (rhymeGroups : List LineGroup) (o : Options) : List Match :=
  sortDescBy (·.priority) (collectMatches rhymeGroups o)

/-- One `{line, char, length}` position of a committed result. -/
structure Position where
  line : Nat
  char : Nat
  length : Nat
deriving DecidableEq

/-- A committed rhyme result before id and color are attached. -/
structure RhymeEntry where
  kind : RhymeKind
  type : String
  rhymeType : String
  rhymeGroup : String
  sequenceLength : Nat
  sequence : List String
  positions : List Position
  chars : List (List String)
  pinyins : List (List String)
  similarity : Nat
deriving DecidableEq

/-- Substring scan over character lists (helper for `strIncludes`). -/
def listContainsSub (l pat : List Char) : Bool :=
  match l with
  | [] => pat.isEmpty
  | c :: tl => pat.isPrefixOf (c :: tl) || listContainsSub tl pat

/-- `String.prototype.includes`: whether `pat` occurs contiguously in `s`. -/
def strIncludes (s pat : String) : Bool :=
  listContainsSub s.toList pat.toList

/-- Collapse each maximal whitespace run to one `'_'` (helper modelling
`replace(/\s+/g, '_')`). -/
def collapseWsAux : List Char → Bool → List Char
  | [], _ => []
  | c :: cs, prevWs =>
    if c.isWhitespace then
      if prevWs then collapseWsAux cs true else '_' :: collapseWsAux cs true
    else c :: collapseWsAux cs false

/-- `rhymeType.toLowerCase().replace(/\s+/g, '_')`.  The characters the
source puts into `rhymeType` are digits and CJK, on which the JS
full-Unicode lowering agrees with the ASCII `Char.toLower`. -/
def jsToLowerReplaceWs (s : String) : String :=
  String.mk (collapseWsAux (s.toList.map Char.toLower) false)

/-- The committed result the greedy loop builds for a match. -/
def mkEntry (m : Match) : RhymeEntry :=
  { kind := m.kind
    type := jsToLowerReplaceWs m.rhymeType
    rhymeType := m.rhymeType
    rhymeGroup := m.sequence.headD ""
    sequenceLength := m.sequenceLength
    sequence := m.sequence
    positions :=
      [⟨m.seq1.lineIndex, m.seq1.startIndex, m.seq1.length⟩,
       ⟨m.seq2.lineIndex, m.seq2.startIndex, m.seq2.length⟩]
    chars := [m.seq1.chars, m.seq2.chars]
    pinyins := [m.seq1.pinyins, m.seq2.pinyins]
    similarity := 1 }

/-- The state of the greedy selection loop: claimed cells, committed
results in commitment order, and the two summary counters. -/
structure SelState where
  marked : List (Nat × Nat)
  results : List RhymeEntry
  endRhymeCount : Nat
  internalRhymeCount : Nat

/-- One iteration of the greedy loop: commit the match iff no cell of
either span is claimed; on commit, append the result, bump the counter
chosen by `rhymeType.includes('句尾')`, and claim both spans' cells. -/
def selStep (st : SelState) (m : Match) : SelState :=
  if !(isSequenceMarked m.seq1 st.marked) && !(isSequenceMarked m.seq2 st.marked) then
    { marked := markSequencePositions m.seq2 (markSequencePositions m.seq1 st.marked)
      results := st.results ++ [mkEntry m]
      endRhymeCount :=
        if strIncludes m.rhymeType "句尾" then st.endRhymeCount + 1 else st.endRhymeCount
      internalRhymeCount :=
        if strIncludes m.rhymeType "句尾" then st.internalRhymeCount
        else st.internalRhymeCount + 1 }
  else st

/-- The fixed ten-color palette of the source. -/
def colorPalette : List String :=
  ["#FF5733", "#33FF57", "#3357FF", "#FF33A8", "#FFC300",
   "#C70039", "#900C3F", "#581845", "#1ABC9C", "#3498DB"]

/-- `String(n).padStart(3, '0')`. -/
def padStart3 (s : String) : String :=
  if s.length ≥ 3 then s else String.mk (List.replicate (3 - s.length) '0') ++ s

/-- A final rhyme result: the committed entry plus its sequential id and
its color. -/
structure RhymeResult extends RhymeEntry where
  id : String
  color : String
deriving DecidableEq

/-- The id-and-color pass over the committed results: sequential ids
`rhyme_001, …` and first-seen color assignment per `sequenceKey`, cycling
through the palette with modulo. -/
def assignLoop : List RhymeEntry → Nat → List (String × String) → Nat → List RhymeResult
  | [], _, _, _ => []
  | e :: rest, index, colorMap, colorIndex =>
    let key := getSequenceKey e.sequence
    let step :=
      if (colorMap.lookup key).isSome then (colorMap, colorIndex)
      else ((key, colorPalette.getD (colorIndex % colorPalette.length) "") :: colorMap,
            colorIndex + 1)
    { toRhymeEntry := e
      id := "rhyme_" ++ padStart3 (toString (index + 1))
      color := (step.1.lookup key).getD "" } :: assignLoop rest (index + 1) step.1 step.2

/-- The two-bucket rhyme-type counters of the summary. -/
structure RhymeTypeCounts where
  endRhyme : Nat
  internalRhyme : Nat
deriving DecidableEq

/-- The analysis summary. -/
structure AnalysisSummary where
  totalLines : Nat
  totalRhymeCount : Nat
  rhymeTypes : RhymeTypeCounts
deriving DecidableEq

/-- The full analysis result returned by `analyzeRhymePatterns`. -/
structure AnalysisResult where
  rhymeGroups : List LineGroup
  analysisResults : List RhymeResult
  summary : AnalysisSummary
deriving DecidableEq

/-- The whole pipeline on validated input: extraction, pair
classification, the stable priority sort, the greedy selection fold, the
id/color pass and the summary. -/
def analyzeCore (rhymeGroups : List LineGroup) (o : Options) : AnalysisResult :=
  let sorted := sortedMatches rhymeGroups o
  let st := sorted.foldl selStep ⟨[], [], 0, 0⟩
  let finalResults := assignLoop st.results 0 [] 0
  { rhymeGroups := rhymeGroups
    analysisResults := finalResults
    summary :=
      { totalLines := rhymeGroups.length
        totalRhymeCount := finalResults.length
        rhymeTypes :=
          { endRhyme := st.endRhymeCount
            internalRhyme := st.internalRhymeCount } } }

/-- JSON-like values: the dynamically-typed argument shape of
`analyzeRhymePatterns`.  A JS array has `typeof 'object'`; field access on
a non-`obj` value yields `undefined`, which every `typeof x !== 'string'`
style guard rejects, so all malformed shapes funnel into the same error
branch as they do in JS. -/
inductive JVal where
  | str (s : String)
  | num (n : Int)
  | bool (b : Bool)
  | null
  | arr (elems : List JVal)
  | obj (fields : List (String × JVal))

/-- Error message for a non-array top-level argument. -/
def msgInput : String := "输入必须是韵脚组序列数组"

/-- Error message for a malformed line entry. -/
def msgGroup : String := "韵脚组序列格式无效"

/-- Error message for a malformed character entry. -/
def msgChar : String := "韵脚组字符信息格式无效"

/-- The four string fields the charInfo guard requires; `none` iff
`typeof charInfo !== 'object' || charInfo === null || typeof .char !==
'string' || …` would throw. -/
def charFields (fields : List (String × JVal)) : Option (String × String × String × String) :=
  match fields.lookup "char", fields.lookup "pinyin",
        fields.lookup "normalGroup", fields.lookup "strictGroup" with
  | some (.str c), some (.str p), some (.str n), some (.str st) => some (c, p, n, st)
  | _, _, _, _ => none

/-- Whether a value passes the charInfo shape guard. -/
def charGuardOk (v : JVal) : Bool :=
  match v with
  | .obj fields => (charFields fields).isSome
  | _ => false

/-- Validate and convert one charInfo value. -/
def toCharInfo (v : JVal) : Except String CharInfo :=
  match v with
  | .obj fields =>
    match charFields fields with
    | some (c, p, n, st) => .ok ⟨c, p, n, st⟩
    | none => .error msgChar
  | _ => .error msgChar

/-- The `line` string and `charInfos` array the group guard requires;
`none` iff the source's group-shape check would throw. -/
def groupFields (fields : List (String × JVal)) : Option (String × List JVal) :=
  match fields.lookup "line", fields.lookup "charInfos" with
  | some (.str line), some (.arr cis) => some (line, cis)
  | _, _ => none

/-- Whether a value passes the group (line entry) shape guard. -/
def lineGuardOk (v : JVal) : Bool :=
  match v with
  | .obj fields => (groupFields fields).isSome
  | _ => false

/-- Left-to-right validation of a list, stopping at the first error;
models the source's validation loops, which throw at the first invalid
entry. -/
def mapExcept (f : α → Except String β) : List α → Except String (List β)
  | [] => .ok []
  | a :: as =>
    match f a with
    | .error e => .error e
    | .ok b =>
      match mapExcept f as with
      | .error e => .error e
      | .ok bs => .ok (b :: bs)

/-- Validate and convert one line entry (group). -/
def toGroup (v : JVal) : Except String LineGroup :=
  match v with
  | .obj fields =>
    match groupFields fields with
    | some (line, cis) =>
      match mapExcept toCharInfo cis with
      | .error e => .error e
      | .ok charInfos => .ok ⟨line, charInfos⟩
    | none => .error msgGroup
  | _ => .error msgGroup

/-- `analyzeRhymePatterns`: reject a non-array argument; return the empty
result on an empty array; otherwise validate every line entry and every
character entry (throwing the first shape error), then run the pipeline.
The thrown JS errors are modelled as `Except.error` with the source's
message strings. -/
def analyzeRhymePatterns (input : JVal) (options : Options) : Except String AnalysisResult :=
  match input with
  | .arr groups =>
    if groups.length == 0 then
      .ok
        { rhymeGroups := []
          analysisResults := []
          summary :=
            { totalLines := 0
              totalRhymeCount := 0
              rhymeTypes := { endRhyme := 0, internalRhyme := 0 } } }
    else
      match mapExcept toGroup groups with
      | .error e => .error e
      | .ok gs => .ok (analyzeCore gs options)
  | _ => .error msgInput

/-! ### Derived notions and concrete inputs used by the claim theorems -/

/-- Whether one of the listed `positions` covers the cell `(l, c)`. -/
def cellInPositions (ps : List Position) (l c : Nat) : Bool :=
  ps.any fun p => p.line == l && (decide (p.char ≤ c) && decide (c < p.char + p.length))

/-- The number of characters of line `i` of a verse. -/
def lineLen (groups : List LineGroup) (i : Nat) : Nat :=
  (groups.getD i ⟨"", []⟩).charInfos.length

/-- The committed results of an analysis run (empty on a validation
error). -/
def resultsOf (input : JVal) (o : Options) : List RhymeResult :=
  match analyzeRhymePatterns input o with
  | .ok res => res.analysisResults
  | .error _ => []

/-- Unwrap an `ok` analysis result, with a fallback. -/
def exceptGetOk (e : Except String AnalysisResult) (d : AnalysisResult) : AnalysisResult :=
  match e with
  | .ok r => r
  | .error _ => d

/-- Fallback empty analysis result. -/
def dAR : AnalysisResult :=
  ⟨[], [], ⟨0, 0, ⟨0, 0⟩⟩⟩

/-- Fallback span value for `headD`. -/
def dSeq : SeqInfo :=
  ⟨0, 0, 0, 0, [], "", [], [], false, 0⟩

/-- Fallback match value for `headD`. -/
def dMatch : Match :=
  ⟨dSeq, dSeq, "", 0, 0, 0, [], "", RhymeKind.endRhyme⟩

/-- Fallback result value for `getD`. -/
def dRes : RhymeResult :=
  ⟨⟨RhymeKind.endRhyme, "", "", "", 0, [], [], [], [], 1⟩, "", ""⟩

/-- A charInfo literal as a `JVal`. -/
def charInfoToJVal (c : CharInfo) : JVal :=
  .obj [("char", .str c.char), ("pinyin", .str c.pinyin),
        ("normalGroup", .str c.normalGroup), ("strictGroup", .str c.strictGroup)]

/-- A line entry literal as a `JVal`. -/
def groupToJVal (g : LineGroup) : JVal :=
  .obj [("line", .str g.line), ("charInfos", .arr (g.charInfos.map charInfoToJVal))]

/-- A verse literal as a `JVal`. -/
def verseToJVal (gs : List LineGroup) : JVal :=
  .arr (gs.map groupToJVal)

/-- Verse A: two one-character lines with the same rhyme group and
different characters; both line-final characters. -/
def vAGroups : List LineGroup :=
  [⟨"甲", [⟨"甲", "jia", "g", "g"⟩]⟩,
   ⟨"乙", [⟨"乙", "yi", "g", "g"⟩]⟩]

/-- Verse A as a raw input value. -/
def vA : JVal := verseToJVal vAGroups

/-- The options used for the C1 counterexample: end-rhyme detection off,
everything else default. -/
def c1Opts : Options := { detectEndRhyme := false }

/-- Verse B: two two-character lines whose first characters share the
rhyme group `g` but differ as characters, and whose final characters do
not rhyme with anything; yields exactly one candidate, an inter-line
match between two non-final spans. -/
def vBGroups : List LineGroup :=
  [⟨"甲末", [⟨"甲", "jia", "g", "g"⟩, ⟨"末", "mo", "u", "u"⟩]⟩,
   ⟨"丙尾", [⟨"丙", "bing", "g", "g"⟩, ⟨"尾", "wei", "w", "w"⟩]⟩]

/-- The single candidate match of verse B under default options. -/
def vBMatch : Match :=
  (collectMatches vBGroups {}).headD dMatch

/-- Verse C: line 0 is `g g u`, line 1 is `h g`, line 2 is `g`.  Under
default options the end-rhyme pair (line 1 char 1, line 2 char 0) is
committed first; the end-rhyme candidate (line 1 char 1, line 0 char 0)
is then blocked, and the internal pair (line 0 chars 0 and 1) — which
shares cell `(0,0)` with that blocked end-rhyme candidate — is
committed. -/
def vCGroups : List LineGroup :=
  [⟨"甲乙丙", [⟨"甲", "jia", "g", "g"⟩, ⟨"乙", "yi", "g", "g"⟩, ⟨"丙", "bing", "u", "u"⟩]⟩,
   ⟨"丁戊", [⟨"丁", "ding", "h", "h"⟩, ⟨"戊", "wu", "g", "g"⟩]⟩,
   ⟨"己", [⟨"己", "ji", "g", "g"⟩]⟩]

/-- Verse C as a raw input value. -/
def vC : JVal := verseToJVal vCGroups

/-- First committed result of verse C (an end rhyme). -/
def vCr0 : RhymeResult := (resultsOf vC {}).getD 0 dRes

/-- Second committed result of verse C (an internal rhyme). -/
def vCr1 : RhymeResult := (resultsOf vC {}).getD 1 dRes

/-- Verse D: one line `g g g u` — three consecutive characters of one
rhyme group.  The two overlapping two-character spans `[0,1]` and `[1,2]`
form the highest-priority candidate, an internal rhyme whose own two
positions share cell `(0,1)`. -/
def vDGroups : List LineGroup :=
  [⟨"甲乙丙丁", [⟨"甲", "jia", "g", "g"⟩, ⟨"乙", "yi", "g", "g"⟩,
                 ⟨"丙", "bing", "g", "g"⟩, ⟨"丁", "ding", "u", "u"⟩]⟩]

/-- Verse D as a raw input value. -/
def vD : JVal := verseToJVal vDGroups

/-- Verse G: a line whose middle character has the `未知` rhyme group. -/
def vGGroups : List LineGroup :=
  [⟨"甲?乙", [⟨"甲", "jia", "g", "g"⟩, ⟨"?", "", "未知", "未知"⟩, ⟨"乙", "yi", "g", "g"⟩]⟩]

/-- First extracted span of verse G. -/
def vGSpan : SeqInfo := (extractAllRhymeSequences vGGroups).headD dSeq

/-- Boundary span 1 for the internal-gap witness: cell 0 of a three-cell
line. -/
def c6s1 : SeqInfo :=
  ⟨0, 0, 0, 1, ["g"], "g", ["甲"], ["jia"], false, 10⟩

/-- Boundary span 2 for the internal-gap witness: cell 2 of the same
line; the gap to `c6s1` is exactly `min(1,1) + 0 = 1`. -/
def c6s2 : SeqInfo :=
  ⟨0, 2, 2, 1, ["g"], "g", ["乙"], ["yi"], false, 10⟩

/-- Well-formedness of a span record: the stored `length` agrees with the
index range (true of every span `extractAllRhymeSequences` builds). -/
def WfSeq (s : SeqInfo) : Prop :=
  s.startIndex ≤ s.endIndex ∧ s.length = s.endIndex - s.startIndex + 1

/-- A span's rhyme-group sequence contains no unknown/empty label. -/
def CleanSeq (s : SeqInfo) : Prop :=
  ∀ x ∈ s.sequence, x ≠ "未知" ∧ x ≠ ""

/-- Two committed results never cover a common character cell. -/
def ResultDisjoint (e1 e2 : RhymeEntry) : Prop :=
  ∀ l c : Nat,
    ¬(cellInPositions e1.positions l c = true ∧ cellInPositions e2.positions l c = true)

/-- The invariant of the greedy selection loop: every committed result's
cells are claimed, and committed results are pairwise cell-disjoint. -/
def SelInv (st : SelState) : Prop :=
  (∀ e ∈ st.results, ∀ l c : Nat,
      cellInPositions e.positions l c = true → (l, c) ∈ st.marked)
  ∧ st.results.Pairwise ResultDisjoint

/-! ### Infrastructure lemmas -/

theorem mem_insertDescBy (key : α → Int) (x a : α) (l : List α) :
    a ∈ insertDescBy key x l ↔ a = x ∨ a ∈ l := by
  induction l with
  | nil => simp [insertDescBy]
  | cons y ys ih =>
    simp only [insertDescBy]
    split
    · simp
    · simp only [List.mem_cons, ih]
      tauto

theorem mem_foldl_insertDescBy (key : α → Int) (a : α) :
    ∀ (l acc : List α),
      a ∈ l.foldl (fun acc x => insertDescBy key x acc) acc ↔ a ∈ acc ∨ a ∈ l := by
  intro l
  induction l with
  | nil => simp
  | cons x xs ih =>
    intro acc
    simp only [List.foldl_cons, ih, mem_insertDescBy, List.mem_cons]
    tauto

theorem mem_sortDescBy (key : α → Int) (a : α) (l : List α) :
    a ∈ sortDescBy key l ↔ a ∈ l := by
  simpa [sortDescBy] using mem_foldl_insertDescBy key a l []

theorem mem_orderedPairs {p q : α} :
    ∀ {l : List α}, (p, q) ∈ orderedPairs l → p ∈ l ∧ q ∈ l := by
  intro l
  induction l with
  | nil => simp [orderedPairs]
  | cons x xs ih =>
    intro h
    simp only [orderedPairs, List.mem_append, List.mem_map] at h
    rcases h with ⟨y, hy, heq⟩ | h
    · cases heq
      exact ⟨List.mem_cons_self _ _, List.mem_cons_of_mem _ hy⟩
    · rcases ih h with ⟨h1, h2⟩
      exact ⟨List.mem_cons_of_mem x h1, List.mem_cons_of_mem x h2⟩

theorem extractLineSpans_props {i : Nat} {g : LineGroup} {s : SeqInfo}
    (h : s ∈ extractLineSpans i g) : WfSeq s ∧ CleanSeq s := by
  simp only [extractLineSpans, List.mem_flatMap, List.mem_filterMap, List.mem_range,
    List.mem_range'_1] at h
  obtain ⟨st, _, en, ⟨hle, _⟩, hsome⟩ := h
  split at hsome
  · exact absurd hsome (by simp)
  · rename_i hclean
    rw [Option.some_inj] at hsome
    subst hsome
    refine ⟨⟨?_, ?_⟩, ?_⟩
    · show st ≤ en
      omega
    · rfl
    intro x hx
    simp only [List.mem_map] at hx
    obtain ⟨ci, hci, rfl⟩ := hx
    simp only [Bool.not_eq_true, List.any_eq_false, Bool.or_eq_true, beq_iff_eq,
      not_or] at hclean
    have := hclean ci hci
    tauto

theorem extractAllRhymeSequences_props {groups : List LineGroup} {s : SeqInfo}
    (h : s ∈ extractAllRhymeSequences groups) : WfSeq s ∧ CleanSeq s := by
  simp only [extractAllRhymeSequences, mem_sortDescBy, List.mem_flatMap] at h
  obtain ⟨p, _, hmem⟩ := h
  exact extractLineSpans_props hmem

theorem classifyPair_some_common {groups : List LineGroup} {o : Options} {s1 s2 : SeqInfo}
    {m : Match} (h : classifyPair groups o s1 s2 = some m) :
    m.seq1 = s1 ∧ m.seq2 = s2 ∧ m.sequence = s1.sequence := by
  unfold classifyPair at h
  dsimp only at h
  repeat' split at h
  all_goals first
    | exact Option.noConfusion h
    | (injection h with h; subst h; exact ⟨rfl, rfl, rfl⟩)

theorem classifyPair_interLine_conds {groups : List LineGroup} {o : Options} {s1 s2 : SeqInfo}
    {m : Match} (h : classifyPair groups o s1 s2 = some m)
    (hk : m.kind = RhymeKind.interLine) :
    (o.detectEndRhyme && (s1.isEndOfLine || s2.isEndOfLine)) = false
    ∧ s1.lineIndex ≠ s2.lineIndex
    ∧ String.join s1.chars ≠ String.join s2.chars := by
  unfold classifyPair at h
  dsimp only at h
  split at h
  case isFalse => exact Option.noConfusion h
  case isTrue hgate =>
    split at h
    case isFalse => exact Option.noConfusion h
    case isTrue hkey =>
      split at h
      case isTrue hend =>
        injection h with h
        subst h
        simp at hk
      case isFalse hend =>
        split at h
        case isTrue hdiff =>
          split at h
          case isTrue hchars => exact Option.noConfusion h
          case isFalse hchars =>
            split at h
            case isFalse => exact Option.noConfusion h
            case isTrue htol =>
              injection h with h
              subst h
              refine ⟨?_, ?_, ?_⟩
              · simp only [Bool.not_eq_true] at hend
                exact hend
              · have hd := hdiff
                simp only [Bool.and_eq_true, bne_iff_ne] at hd
                exact hd.2
              · simpa using hchars
        case isFalse hdiff =>
          split at h
          case isFalse => exact Option.noConfusion h
          case isTrue hint =>
            split at h
            case isFalse => exact Option.noConfusion h
            case isTrue =>
              injection h with h
              subst h
              simp at hk

theorem collectMatches_mem {groups : List LineGroup} {o : Options} {m : Match}
    (h : m ∈ collectMatches groups o) :
    ∃ s1 s2 : SeqInfo, s1 ∈ extractAllRhymeSequences groups
      ∧ s2 ∈ extractAllRhymeSequences groups
      ∧ classifyPair groups o s1 s2 = some m := by
  simp only [collectMatches, List.mem_filterMap] at h
  obtain ⟨⟨a, b⟩, hpq, hcl⟩ := h
  obtain ⟨h1, h2⟩ := mem_orderedPairs hpq
  exact ⟨a, b, h1, h2, hcl⟩

theorem sortedMatches_mem {groups : List LineGroup} {o : Options} {m : Match} :
    m ∈ sortedMatches groups o ↔ m ∈ collectMatches groups o := by
  simp [sortedMatches, mem_sortDescBy]

theorem collectMatches_wf {groups : List LineGroup} {o : Options} {m : Match}
    (h : m ∈ collectMatches groups o) :
    (WfSeq m.seq1 ∧ CleanSeq m.seq1) ∧ (WfSeq m.seq2 ∧ CleanSeq m.seq2) := by
  obtain ⟨s1, s2, h1, h2, hcl⟩ := collectMatches_mem h
  obtain ⟨e1, e2, _⟩ := classifyPair_some_common hcl
  rw [e1, e2]
  exact ⟨extractAllRhymeSequences_props h1, extractAllRhymeSequences_props h2⟩

theorem mem_cellList_of_wf {s : SeqInfo} (hwf : WfSeq s) {l c : Nat} :
    (l, c) ∈ s.cellList ↔ l = s.lineIndex ∧ s.startIndex ≤ c ∧ c ≤ s.endIndex := by
  obtain ⟨h1, _⟩ := hwf
  simp only [SeqInfo.cellList, List.mem_map, List.mem_range'_1, Prod.mk.injEq]
  constructor
  · rintro ⟨i, hi, hli, rfl⟩
    exact ⟨hli.symm, hi.1, by omega⟩
  · rintro ⟨rfl, hc1, hc2⟩
    exact ⟨c, ⟨hc1, by omega⟩, rfl, rfl⟩

theorem cellInPositions_mkEntry {m : Match} (hwf1 : WfSeq m.seq1) (hwf2 : WfSeq m.seq2)
    {l c : Nat} :
    cellInPositions (mkEntry m).positions l c = true ↔
      (l, c) ∈ m.seq1.cellList ∨ (l, c) ∈ m.seq2.cellList := by
  rw [mem_cellList_of_wf hwf1, mem_cellList_of_wf hwf2]
  obtain ⟨ha1, hb1⟩ := hwf1
  obtain ⟨ha2, hb2⟩ := hwf2
  simp only [cellInPositions, mkEntry, List.any_cons, List.any_nil, Bool.or_false,
    Bool.or_eq_true, Bool.and_eq_true, decide_eq_true_eq, beq_iff_eq]
  constructor
  · rintro (⟨h1, h2, h3⟩ | ⟨h1, h2, h3⟩)
    · exact Or.inl ⟨h1.symm, h2, by omega⟩
    · exact Or.inr ⟨h1.symm, h2, by omega⟩
  · rintro (⟨h1, h2, h3⟩ | ⟨h1, h2, h3⟩)
    · exact Or.inl ⟨h1.symm, h2, by omega⟩
    · exact Or.inr ⟨h1.symm, h2, by omega⟩

theorem isSequenceMarked_false_iff {s : SeqInfo} {marked : List (Nat × Nat)} :
    isSequenceMarked s marked = false ↔ ∀ cl ∈ s.cellList, cl ∉ marked := by
  simp [isSequenceMarked, List.any_eq_false]

theorem mem_markSequencePositions {s : SeqInfo} {marked : List (Nat × Nat)} {cl : Nat × Nat} :
    cl ∈ markSequencePositions s marked ↔ cl ∈ marked ∨ cl ∈ s.cellList := by
  simp [markSequencePositions]

theorem selStep_inv {st : SelState} {m : Match} (hwf1 : WfSeq m.seq1) (hwf2 : WfSeq m.seq2)
    (hinv : SelInv st) : SelInv (selStep st m) := by
  unfold SelInv at hinv ⊢
  obtain ⟨hres, hpw⟩ := hinv
  unfold selStep
  split
  case isFalse => exact ⟨hres, hpw⟩
  case isTrue hcond =>
    simp only [Bool.and_eq_true, Bool.not_eq_true'] at hcond
    obtain ⟨hm1, hm2⟩ := hcond
    have hnew : ∀ l c : Nat, cellInPositions (mkEntry m).positions l c = true →
        (l, c) ∈ m.seq1.cellList ∨ (l, c) ∈ m.seq2.cellList :=
      fun l c hc => (cellInPositions_mkEntry hwf1 hwf2).mp hc
    dsimp only
    constructor
    · intro e he l c hcov
      simp only [List.mem_append, List.mem_singleton] at he
      simp only [mem_markSequencePositions]
      rcases he with he | rfl
      · have := hres e he l c hcov
        tauto
      · rcases hnew l c hcov with hc | hc
        · tauto
        · tauto
    · refine List.pairwise_append.mpr ⟨hpw, List.pairwise_singleton _ _, ?_⟩
      intro e he e' he'
      rw [List.mem_singleton] at he'
      subst he'
      intro l c hand
      obtain ⟨hcA, hcB⟩ := hand
      have hmem := hres e he l c hcA
      rcases hnew l c hcB with hc | hc
      · exact (isSequenceMarked_false_iff.mp hm1 _ hc) hmem
      · exact (isSequenceMarked_false_iff.mp hm2 _ hc) hmem

theorem foldl_selStep_inv {ms : List Match} :
    ∀ {st : SelState}, (∀ m ∈ ms, WfSeq m.seq1 ∧ WfSeq m.seq2) → SelInv st →
      SelInv (ms.foldl selStep st) := by
  induction ms with
  | nil => intro st _ h; simpa using h
  | cons m rest ih =>
    intro st hwf hinv
    simp only [List.foldl_cons]
    exact ih (fun m' hm' => hwf m' (List.mem_cons_of_mem _ hm'))
      (selStep_inv (hwf m (List.mem_cons_self _ _)).1 (hwf m (List.mem_cons_self _ _)).2 hinv)

theorem mem_results_foldl {ms : List Match} :
    ∀ {st : SelState} {e : RhymeEntry}, e ∈ (ms.foldl selStep st).results →
      e ∈ st.results ∨ ∃ m ∈ ms, e = mkEntry m := by
  induction ms with
  | nil => intro st e h; exact Or.inl (by simpa using h)
  | cons m rest ih =>
    intro st e h
    simp only [List.foldl_cons] at h
    rcases ih h with h' | h'
    · unfold selStep at h'
      split at h'
      case isTrue =>
        dsimp only at h'
        rcases List.mem_append.mp h' with h'' | h''
        · exact Or.inl h''
        · exact Or.inr ⟨m, List.mem_cons_self _ _, List.mem_singleton.mp h''⟩
      case isFalse => exact Or.inl h'
    · obtain ⟨m', hm', he⟩ := h'
      exact Or.inr ⟨m', List.mem_cons_of_mem _ hm', he⟩

theorem assignLoop_map_base :
    ∀ (entries : List RhymeEntry) (index : Nat) (cm : List (String × String)) (ci : Nat),
      (assignLoop entries index cm ci).map RhymeResult.toRhymeEntry = entries := by
  intro entries
  induction entries with
  | nil => intro _ _ _; rfl
  | cons e rest ih =>
    intro index cm ci
    simp only [assignLoop, List.map_cons, ih]

theorem analyzeCore_pairwise (groups : List LineGroup) (o : Options) :
    (analyzeCore groups o).analysisResults.Pairwise
      (fun r1 r2 => ResultDisjoint r1.toRhymeEntry r2.toRhymeEntry) := by
  have hwfms : ∀ m ∈ sortedMatches groups o, WfSeq m.seq1 ∧ WfSeq m.seq2 := by
    intro m hm
    have h := collectMatches_wf (sortedMatches_mem.mp hm)
    exact ⟨h.1.1, h.2.1⟩
  have hinv : SelInv ⟨[], [], 0, 0⟩ := by
    unfold SelInv
    exact ⟨by simp, List.Pairwise.nil⟩
  have hfold := foldl_selStep_inv hwfms hinv
  unfold SelInv at hfold
  have hpw := hfold.2
  have hmap := assignLoop_map_base
    ((sortedMatches groups o).foldl selStep ⟨[], [], 0, 0⟩).results 0 [] 0
  rw [← hmap] at hpw
  unfold analyzeCore
  dsimp only
  exact List.pairwise_map.mp hpw

theorem analyzeCore_results_entries {groups : List LineGroup} {o : Options} {r : RhymeResult}
    (h : r ∈ (analyzeCore groups o).analysisResults) :
    ∃ m ∈ sortedMatches groups o, r.toRhymeEntry = mkEntry m := by
  unfold analyzeCore at h
  dsimp only at h
  have hmap := assignLoop_map_base
    ((sortedMatches groups o).foldl selStep ⟨[], [], 0, 0⟩).results 0 [] 0
  have hmem : r.toRhymeEntry ∈
      ((sortedMatches groups o).foldl selStep ⟨[], [], 0, 0⟩).results := by
    rw [← hmap]
    exact List.mem_map_of_mem _ h
  rcases mem_results_foldl hmem with h' | h'
  · simp at h'
  · exact h'

theorem analyzeRhymePatterns_ok_elim {v : JVal} {o : Options} {res : AnalysisResult}
    (h : analyzeRhymePatterns v o = .ok res) :
    res.analysisResults = [] ∨ ∃ gs : List LineGroup, res = analyzeCore gs o := by
  unfold analyzeRhymePatterns at h
  split at h
  · split at h
    · injection h with h
      subst h
      exact Or.inl rfl
    · split at h
      · exact Except.noConfusion h
      · injection h with h
        subst h
        exact Or.inr ⟨_, rfl⟩
  · exact Except.noConfusion h

theorem collectMatches_interLine_chars_ne {groups : List LineGroup} {o : Options} {m : Match}
    (hm : m ∈ collectMatches groups o) (hk : m.kind = RhymeKind.interLine) :
    m.seq1.chars ≠ m.seq2.chars := by
  obtain ⟨s1, s2, _, _, hcl⟩ := collectMatches_mem hm
  obtain ⟨e1, e2, _⟩ := classifyPair_some_common hcl
  obtain ⟨_, _, hjoin⟩ := classifyPair_interLine_conds hcl hk
  rw [e1, e2]
  intro he
  exact hjoin (by rw [he])

/-- C1 (amended): with `detectEndRhyme` enabled, every candidate classified
as inter-line rhyme (`非句尾句间押韵`) has both spans non-end-of-line,
because any equal-key pair containing an end-of-line span is captured by
the end-rhyme branch first. -/
theorem c1_interline_non_end_of_line (groups : List LineGroup) (o : Options) (m : Match)
    (hEnd : o.detectEndRhyme = true) (hm : m ∈ collectMatches groups o)
    (hk : m.kind = RhymeKind.interLine) :
    m.seq1.isEndOfLine = false ∧ m.seq2.isEndOfLine = false := by
  obtain ⟨s1, s2, _, _, hcl⟩ := collectMatches_mem hm
  obtain ⟨e1, e2, _⟩ := classifyPair_some_common hcl
  obtain ⟨hfalse, _, _⟩ := classifyPair_interLine_conds hcl hk
  rw [hEnd] at hfalse
  simp only [Bool.true_and, Bool.or_eq_false_iff] at hfalse
  rw [e1, e2]
  exact hfalse

/-- C1 (witness): verse B under default options yields an inter-line
candidate, and the amended theorem applies to it. -/
theorem c1_witness : vBMatch.seq1.isEndOfLine = false ∧ vBMatch.seq2.isEndOfLine = false :=
  c1_interline_non_end_of_line vBGroups {} vBMatch rfl (by decide) rfl

/-- C1 (counterexample): on verse A with `detectEndRhyme := false`, the
analysis commits an inter-line rhyme result every one of whose positions
is end-of-line — refuting the claim that an InterLineRhyme candidate or
result always has both spans non-end-of-line. -/
theorem c1_counterexample :
    ((resultsOf vA c1Opts).any fun r =>
        r.kind == RhymeKind.interLine &&
        r.positions.all fun p => p.char + p.length == lineLen vAGroups p.line) = true := rfl

/-- C2: for any input accepted by `analyzeRhymePatterns`, no character
cell `(line, char)` is covered by the positions of two distinct entries of
`analysisResults`: the greedy selector commits a candidate only when no
cell of either span is claimed and then claims all cells of both spans. -/
theorem c2_no_cell_in_two_results (v : JVal) (o : Options) (res : AnalysisResult)
    (h : analyzeRhymePatterns v o = .ok res) :
    res.analysisResults.Pairwise (fun r1 r2 => ∀ l c : Nat,
      ¬(cellInPositions r1.positions l c = true ∧ cellInPositions r2.positions l c = true)) := by
  rcases analyzeRhymePatterns_ok_elim h with he | ⟨gs, rfl⟩
  · rw [he]
    exact List.Pairwise.nil
  · exact analyzeCore_pairwise gs o

/-- C2 (witness): the two committed results of verse C do not share cell
`(1, 1)`. -/
theorem c2_witness :
    ¬(cellInPositions vCr0.positions 1 1 = true ∧ cellInPositions vCr1.positions 1 1 = true) := by
  have h := c2_no_cell_in_two_results vC {} (exceptGetOk (analyzeRhymePatterns vC {}) dAR) rfl
  have h2 : List.Pairwise (fun r1 r2 : RhymeResult => ∀ l c : Nat,
      ¬(cellInPositions r1.positions l c = true ∧ cellInPositions r2.positions l c = true))
      [vCr0, vCr1] := h
  exact (List.pairwise_cons.mp h2).1 vCr1 (List.mem_singleton.mpr rfl) 1 1

/-- C3: `analyzeRhymePatterns` is a pure function of its two arguments:
structurally identical inputs and options give identical results —
result list, identifiers, colors and summary included. -/
theorem c3_deterministic (v1 v2 : JVal) (o1 o2 : Options) (hv : v1 = v2) (ho : o1 = o2) :
    analyzeRhymePatterns v1 o1 = analyzeRhymePatterns v2 o2 := by
  rw [hv, ho]

/-- C3 (witness): the determinism theorem applied at verse D. -/
theorem c3_witness :
    analyzeRhymePatterns vD ({} : Options) = analyzeRhymePatterns vD ({} : Options) :=
  c3_deterministic vD vD {} {} rfl rfl

/-- C4 (amended): an EndRhyme result and an InternalRhyme result never
both cover one cell — at most one of two cell-sharing candidates is ever
committed; which one is committed depends on what higher-priority
commitments have already claimed. -/
theorem c4_end_internal_never_both (v : JVal) (o : Options) (res : AnalysisResult)
    (h : analyzeRhymePatterns v o = .ok res) (r1 r2 : RhymeResult)
    (h1 : r1 ∈ res.analysisResults) (h2 : r2 ∈ res.analysisResults)
    (hk1 : r1.kind = RhymeKind.endRhyme) (hk2 : r2.kind = RhymeKind.internal) (l c : Nat) :
    ¬(cellInPositions r1.positions l c = true ∧ cellInPositions r2.positions l c = true) := by
  have hne : r1 ≠ r2 := by
    intro he
    rw [he] at hk1
    rw [hk1] at hk2
    exact RhymeKind.noConfusion hk2
  have hpw : res.analysisResults.Pairwise
      (fun a b : RhymeResult => ResultDisjoint a.toRhymeEntry b.toRhymeEntry) := by
    rcases analyzeRhymePatterns_ok_elim h with he | ⟨gs, rfl⟩
    · rw [he]
      exact List.Pairwise.nil
    · exact analyzeCore_pairwise gs o
  have hsym : Symmetric (fun a b : RhymeResult => ResultDisjoint a.toRhymeEntry b.toRhymeEntry) := by
    intro a b hab l' c' hand
    exact hab l' c' ⟨hand.2, hand.1⟩
  exact List.Pairwise.forall hsym hpw h1 h2 hne l c

/-- C4 (witness): applied to the end-rhyme and internal results of verse C
at cell `(0, 0)`. -/
theorem c4_witness :
    ¬(cellInPositions vCr0.positions 0 0 = true ∧ cellInPositions vCr1.positions 0 0 = true) :=
  c4_end_internal_never_both vC {} (exceptGetOk (analyzeRhymePatterns vC {}) dAR) rfl
    vCr0 vCr1 (by decide) (by decide) rfl rfl 0 0

/-- C4 (counterexample): in verse C under default options the candidate
set contains an EndRhyme candidate covering cell `(0, 0)`, yet the
committed result covering `(0, 0)` is the InternalRhyme candidate and no
committed EndRhyme result covers that cell: the earlier end-rhyme
commitment between lines 1 and 2 blocked the end-rhyme candidate, so the
EndRhyme candidate is not the one committed. -/
theorem c4_counterexample :
    ((collectMatches vCGroups ({} : Options)).any fun m =>
        m.kind == RhymeKind.endRhyme &&
        (decide ((0, 0) ∈ m.seq1.cellList) || decide ((0, 0) ∈ m.seq2.cellList))) = true
    ∧ ((resultsOf vC ({} : Options)).any fun r =>
        r.kind == RhymeKind.internal && cellInPositions r.positions 0 0) = true
    ∧ ((resultsOf vC ({} : Options)).all fun r =>
        !(r.kind == RhymeKind.endRhyme && cellInPositions r.positions 0 0)) = true :=
  ⟨rfl, rfl, rfl⟩

/-- C5: two spans on different lines with identical literal characters are
never classified as inter-line rhyme — neither as a candidate nor as a
committed result; the inter-line branch skips any pair whose joined
character strings coincide. -/
theorem c5_self_repeat_excluded :
    (∀ (groups : List LineGroup) (o : Options), ∀ m ∈ collectMatches groups o,
        m.kind = RhymeKind.interLine → m.seq1.chars ≠ m.seq2.chars)
    ∧ (∀ (v : JVal) (o : Options) (res : AnalysisResult),
        analyzeRhymePatterns v o = .ok res → ∀ r ∈ res.analysisResults,
          r.kind = RhymeKind.interLine → ∀ c1 c2 : List String,
            r.chars = [c1, c2] → c1 ≠ c2) := by
  constructor
  · intro groups o m hm hk
    exact collectMatches_interLine_chars_ne hm hk
  · intro v o res h r hr hk c1 c2 hchars
    rcases analyzeRhymePatterns_ok_elim h with he | ⟨gs, rfl⟩
    · rw [he] at hr
      simp at hr
    · obtain ⟨m, hm, hbase⟩ := analyzeCore_results_entries hr
      have hk' : m.kind = RhymeKind.interLine := by
        have hkk : r.toRhymeEntry.kind = m.kind := by
          rw [hbase]
          rfl
        rw [← hkk]
        exact hk
      have hch : r.toRhymeEntry.chars = [m.seq1.chars, m.seq2.chars] := by
        rw [hbase]
        rfl
      rw [hchars] at hch
      injection hch with hA hrest
      injection hrest with hB _
      subst hA
      subst hB
      exact collectMatches_interLine_chars_ne (sortedMatches_mem.mp hm) hk'

/-- C5 (witness): the single candidate of verse B is inter-line, and its
two character lists differ. -/
theorem c5_witness : vBMatch.seq1.chars ≠ vBMatch.seq2.chars :=
  c5_self_repeat_excluded.1 vBGroups {} vBMatch (by decide) rfl

/-- C6: a same-line pair with equal `sequenceKey` that reaches the
internal-rhyme rule is accepted iff its non-overlapping gap (0 when the
spans overlap or abut) is at most
`min(seq1.length, seq2.length) + internalRhymeTolerance`; in particular a
gap exactly at the bound is accepted and a gap one greater is rejected,
and the accepted candidate is internal with `interval = gap`. -/
theorem c6_internal_boundary (groups : List LineGroup) (o : Options) (s1 s2 : SeqInfo)
    (hline : s1.lineIndex = s2.lineIndex)
    (hkey : s1.sequenceKey = s2.sequenceKey)
    (hgate : ((absDiff s1.lineIndex s2.lineIndex : Nat) : Int) ≤ o.interLineLineDiffTolerance)
    (hend : (o.detectEndRhyme && (s1.isEndOfLine || s2.isEndOfLine)) = false)
    (hint : o.detectInternalRhyme = true) :
    ((classifyPair groups o s1 s2).isSome = true ↔
      ((internalGap s1 s2 : Nat) : Int)
        ≤ ((Nat.min s1.length s2.length : Nat) : Int) + o.internalRhymeTolerance)
    ∧ (∀ m : Match, classifyPair groups o s1 s2 = some m →
        m.kind = RhymeKind.internal ∧ m.interval = internalGap s1 s2) := by
  have hgateB : isWithinFourLines s1 s2 o.interLineLineDiffTolerance = true := by
    unfold isWithinFourLines
    exact decide_eq_true hgate
  have hkeyB : (s1.sequenceKey == s2.sequenceKey) = true := beq_iff_eq.mpr hkey
  have hdiffB : (o.detectInterLineRhyme && (s1.lineIndex != s2.lineIndex)) = false := by
    simp [hline]
  have hintB : (o.detectInternalRhyme && (s1.lineIndex == s2.lineIndex)) = true := by
    simp [hint, hline]
  have hvalid : isInternalRhymeValid s1 s2 o.internalRhymeTolerance
      = decide (((internalGap s1 s2 : Nat) : Int)
          ≤ ((Nat.min s1.length s2.length : Nat) : Int) + o.internalRhymeTolerance) := by
    unfold isInternalRhymeValid
    rw [hline]
    simp
  simp only [classifyPair, hgateB, hkeyB, hend, hdiffB, hintB, hvalid, Bool.false_eq_true,
    if_true, if_false]
  constructor
  · by_cases hP : ((internalGap s1 s2 : Nat) : Int)
        ≤ ((Nat.min s1.length s2.length : Nat) : Int) + o.internalRhymeTolerance
    · simp [hP]
    · simp [hP]
  · intro m hm
    split at hm
    · injection hm with hm
      subst hm
      exact ⟨rfl, rfl⟩
    · exact Option.noConfusion hm

/-- C6 (witness): two one-character same-line spans two cells apart — gap
exactly `min(1,1) + 0 = 1` — are accepted by the internal-rhyme rule
under default options. -/
theorem c6_witness : (classifyPair [] ({} : Options) c6s1 c6s2).isSome = true :=
  (c6_internal_boundary [] {} c6s1 c6s2 rfl rfl (by decide) (by decide) rfl).1.mpr (by decide)

/-- C7: no extracted span and no committed result carries the unknown
(`未知`) or empty rhyme-group label in its `sequence`: any range
containing such a character is discarded whole during extraction. -/
theorem c7_no_unknown :
    (∀ (groups : List LineGroup), ∀ s ∈ extractAllRhymeSequences groups,
        ∀ x ∈ s.sequence, x ≠ "未知" ∧ x ≠ "")
    ∧ (∀ (v : JVal) (o : Options) (res : AnalysisResult),
        analyzeRhymePatterns v o = .ok res → ∀ r ∈ res.analysisResults,
          ∀ x ∈ r.sequence, x ≠ "未知" ∧ x ≠ "") := by
  have hspan : ∀ (groups : List LineGroup), ∀ s ∈ extractAllRhymeSequences groups,
      ∀ x ∈ s.sequence, x ≠ "未知" ∧ x ≠ "" := by
    intro groups s hs
    exact (extractAllRhymeSequences_props hs).2
  refine ⟨hspan, ?_⟩
  intro v o res h r hr x hx
  rcases analyzeRhymePatterns_ok_elim h with he | ⟨gs, rfl⟩
  · rw [he] at hr
    simp at hr
  · obtain ⟨m, hm, hbase⟩ := analyzeCore_results_entries hr
    obtain ⟨s1, s2, hs1, _, hcl⟩ := collectMatches_mem (sortedMatches_mem.mp hm)
    obtain ⟨_, _, hseq⟩ := classifyPair_some_common hcl
    have hrs : r.toRhymeEntry.sequence = s1.sequence := by
      rw [hbase]
      exact hseq
    rw [hrs] at hx
    exact hspan gs s1 hs1 x hx

/-- C7 (witness): the head span extracted from verse G (whose middle
character is unknown) carries the clean label `"g"`. -/
theorem c7_witness : "g" ≠ "未知" ∧ "g" ≠ "" :=
  c7_no_unknown.1 vGGroups vGSpan (by decide) "g" (by decide)

/-- C9: an empty verse is not an error: `analyzeRhymePatterns` returns an
empty result list and an all-zero summary. -/
theorem c9_empty_verse (o : Options) :
    analyzeRhymePatterns (JVal.arr []) o = Except.ok
      { rhymeGroups := []
        analysisResults := []
        summary :=
          { totalLines := 0
            totalRhymeCount := 0
            rhymeTypes := { endRhyme := 0, internalRhyme := 0 } } } := rfl

/-- C10: committed results are only disjoint across distinct results, not
within one: on verse D (three consecutive same-group characters) the
single committed result is an internal rhyme whose own two positions both
cover cell `(0, 1)`. -/
theorem c10_single_result_self_overlap :
    (resultsOf vD ({} : Options)).length = 1
    ∧ ((resultsOf vD ({} : Options)).any fun r =>
        r.kind == RhymeKind.internal &&
        r.positions.all fun p =>
          p.line == 0 && (decide (p.char ≤ 1) && decide (1 < p.char + p.length))) = true :=
  ⟨rfl, rfl⟩

theorem toCharInfo_error_of_guard {v : JVal} (h : charGuardOk v = false) :
    toCharInfo v = .error msgChar := by
  cases v with
  | obj fields =>
    unfold charGuardOk at h
    dsimp only at h
    unfold toCharInfo
    dsimp only
    cases hcf : charFields fields with
    | none => rfl
    | some val =>
      rw [hcf] at h
      simp at h
  | str s => rfl
  | num n => rfl
  | bool b => rfl
  | null => rfl
  | arr l => rfl

theorem toGroup_error_of_guard {v : JVal} (h : lineGuardOk v = false) :
    toGroup v = .error msgGroup := by
  cases v with
  | obj fields =>
    unfold lineGuardOk at h
    dsimp only at h
    unfold toGroup
    dsimp only
    cases hgf : groupFields fields with
    | none => rfl
    | some val =>
      rw [hgf] at h
      simp at h
  | str s => rfl
  | num n => rfl
  | bool b => rfl
  | null => rfl
  | arr l => rfl

theorem mapExcept_error_at {f : α → Except String β} {pre : List α} {bad : α} (rest : List α)
    {e : String} (hpre : ∀ a ∈ pre, ∃ b, f a = .ok b) (hbad : f bad = .error e) :
    mapExcept f (pre ++ bad :: rest) = .error e := by
  induction pre with
  | nil =>
    rw [List.nil_append]
    unfold mapExcept
    rw [hbad]
  | cons a as ih =>
    obtain ⟨b, hb⟩ := hpre a (List.mem_cons_self _ _)
    have ih' := ih fun a' ha' => hpre a' (List.mem_cons_of_mem _ ha')
    rw [List.cons_append]
    unfold mapExcept
    rw [hb, ih']

/-- C8: `analyzeRhymePatterns` validates the input shape eagerly and
fails with a distinguishable error for each malformed layer — a
non-array verse, a line entry without a string `line` or an array
`charInfos` (given that the entries before it validate), and a character
entry missing one of its four string fields (given that everything before
it validates) — and on such input no analysis result is returned, only
the error. -/
theorem c8_shape_validation :
    (msgInput ≠ msgGroup ∧ msgInput ≠ msgChar ∧ msgGroup ≠ msgChar)
    ∧ (∀ (o : Options) (v : JVal), (∀ l : List JVal, v ≠ JVal.arr l) →
        analyzeRhymePatterns v o = .error msgInput)
    ∧ (∀ (o : Options) (pre : List JVal) (bad : JVal) (rest : List JVal),
        (∀ g ∈ pre, ∃ gr, toGroup g = .ok gr) → lineGuardOk bad = false →
        analyzeRhymePatterns (.arr (pre ++ bad :: rest)) o = .error msgGroup)
    ∧ (∀ (o : Options) (pre : List JVal) (fields : List (String × JVal)) (line : String)
        (cpre : List JVal) (badc : JVal) (crest rest : List JVal),
        (∀ g ∈ pre, ∃ gr, toGroup g = .ok gr) →
        groupFields fields = some (line, cpre ++ badc :: crest) →
        (∀ cv ∈ cpre, ∃ ci, toCharInfo cv = .ok ci) → charGuardOk badc = false →
        analyzeRhymePatterns (.arr (pre ++ JVal.obj fields :: rest)) o = .error msgChar) := by
  refine ⟨⟨by decide, by decide, by decide⟩, ?_, ?_, ?_⟩
  · intro o v hv
    cases v with
    | arr l => exact absurd rfl (hv l)
    | str s => rfl
    | num n => rfl
    | bool b => rfl
    | null => rfl
    | obj fields => rfl
  · intro o pre bad rest hpre hbad
    have herr := mapExcept_error_at rest hpre (toGroup_error_of_guard hbad)
    have hlen : ((pre ++ bad :: rest).length == 0) = false := by
      simp [List.length_append]
    unfold analyzeRhymePatterns
    dsimp only
    rw [hlen]
    simp only [Bool.false_eq_true, if_false]
    rw [herr]
  · intro o pre fields line cpre badc crest rest hpre hgf hcpre hbadc
    have hg : toGroup (JVal.obj fields) = .error msgChar := by
      unfold toGroup
      dsimp only
      rw [hgf]
      dsimp only
      rw [mapExcept_error_at crest hcpre (toCharInfo_error_of_guard hbadc)]
    have herr := mapExcept_error_at rest hpre hg
    have hlen : ((pre ++ JVal.obj fields :: rest).length == 0) = false := by
      simp [List.length_append]
    unfold analyzeRhymePatterns
    dsimp only
    rw [hlen]
    simp only [Bool.false_eq_true, if_false]
    rw [herr]

/-- C8 (witness): a string argument, an array containing `null`, and an
array whose line entry has a charInfo with only a `char` field, produce
the three distinct errors. -/
theorem c8_witness :
    analyzeRhymePatterns (JVal.str "甲") ({} : Options) = .error msgInput
    ∧ analyzeRhymePatterns (JVal.arr [JVal.null]) ({} : Options) = .error msgGroup
    ∧ analyzeRhymePatterns
        (JVal.arr [JVal.obj [("line", JVal.str "甲"),
          ("charInfos", JVal.arr [JVal.obj [("char", JVal.str "甲")]])]])
        ({} : Options) = .error msgChar := by
  refine ⟨?_, ?_, ?_⟩
  · exact c8_shape_validation.2.1 {} (JVal.str "甲") fun l h => JVal.noConfusion h
  · exact c8_shape_validation.2.2.1 {} [] JVal.null [] (fun g hg => absurd hg (List.not_mem_nil g)) rfl
  · exact c8_shape_validation.2.2.2 {} []
      [("line", JVal.str "甲"), ("charInfos", JVal.arr [JVal.obj [("char", JVal.str "甲")]])]
      "甲" [] (JVal.obj [("char", JVal.str "甲")]) [] []
      (fun g hg => absurd hg (List.not_mem_nil g)) rfl
      (fun cv hcv => absurd hcv (List.not_mem_nil cv)) rfl
